import Mathlib

/-!
Shallow embedding of the `generic-statics` crate (src/lib.rs, src/zeroable.rs):
a per-(namespace, type) static-slot allocator built on inline-asm emitted
zero-filled static blocks, plus the `Zeroable` capability trait.

Machine addresses and sizes are modelled as `Nat`; the targets covered by the
crate are all 64-bit, so pointer-sized types have size 8.  A "panic" of the
accessor is modelled as `Except.error` carrying the panic message.
-/

mutual

/-- Model of the Rust types relevant to this crate: the types carrying built-in
`Zeroable` impls in src/zeroable.rs, together with references (`refLt lt t`
models `&'lt t` with a non-static lifetime) and arrays/tuples.  Every type in
this universe is `Sized`, so the `T: Sized` bounds on the raw-pointer impls
are satisfied throughout. -/
inductive Ty where
  | i8 | i16 | i32 | i64 | i128
  | u8 | u16 | u32 | u64 | u128
  | isize | usize | bool
  | atomicBool
  | atomicI8 | atomicI16 | atomicI32 | atomicI64 | atomicIsize
  | atomicU8 | atomicU16 | atomicU32 | atomicU64 | atomicUsize
  | atomicPtr (t : Ty)
  | constPtr (t : Ty)
  | mutPtr (t : Ty)
  | maybeUninit (t : Ty)
  | manuallyDrop (t : Ty)
  | unsafeCell (t : Ty)
  | phantomData (t : Ty)
  | array (t : Ty) (n : Nat)
  | tuple (ts : TyList)
  | refLt (lt : Nat) (t : Ty)
deriving DecidableEq

/-- A list of field types of a tuple type. -/
inductive TyList where
  | nil
  | cons (t : Ty) (ts : TyList)
deriving DecidableEq

end

/-- Convert a field list to an ordinary `List`. -/
def TyList.toList : TyList → List Ty
  | .nil => []
  | .cons t ts => t :: ts.toList

/-- Number of fields of a tuple field list. -/
def TyList.len : TyList → Nat
  | .nil => 0
  | .cons _ ts => ts.len + 1

mutual

/-- Translation of the `Zeroable` impls of src/zeroable.rs: integers and bool
(line 37), the atomic integer types (lines 39-51), `AtomicPtr` (line 53),
raw pointers to `Sized` pointees (lines 55-56), `MaybeUninit` (line 58),
`ManuallyDrop` and `UnsafeCell` iff the inner type is zeroable (lines 60-61),
`PhantomData` unconditionally (line 62), arrays of a zeroable element type
(line 64), and tuples of 1 through 8 fields with all field types zeroable
(lines 66-82).  References carry no impl. -/
def zeroable : Ty → Bool
  | .i8 | .i16 | .i32 | .i64 | .i128 => true
  | .u8 | .u16 | .u32 | .u64 | .u128 => true
  | .isize | .usize | .bool => true
  | .atomicBool => true
  | .atomicI8 | .atomicI16 | .atomicI32 | .atomicI64 | .atomicIsize => true
  | .atomicU8 | .atomicU16 | .atomicU32 | .atomicU64 | .atomicUsize => true
  | .atomicPtr _ => true
  | .constPtr _ => true
  | .mutPtr _ => true
  | .maybeUninit _ => true
  | .manuallyDrop t => zeroable t
  | .unsafeCell t => zeroable t
  | .phantomData _ => true
  | .array t _ => zeroable t
  | .tuple ts => decide (1 ≤ ts.len) && decide (ts.len ≤ 8) && zeroableList ts
  | .refLt _ _ => false

/-- Every member of a field list is zeroable. -/
def zeroableList : TyList → Bool
  | .nil => true
  | .cons t ts => zeroable t && zeroableList ts

end

mutual

/-- Whether a type satisfies the `T: 'static` bound of the accessor: it
mentions no non-static lifetime, i.e. contains no reference constructor. -/
def isStaticTy : Ty → Bool
  | .refLt _ _ => false
  | .atomicPtr t | .constPtr t | .mutPtr t => isStaticTy t
  | .maybeUninit t | .manuallyDrop t | .unsafeCell t | .phantomData t => isStaticTy t
  | .array t _ => isStaticTy t
  | .tuple ts => isStaticList ts
  | _ => true

/-- Every member of a field list is 'static. -/
def isStaticList : TyList → Bool
  | .nil => true
  | .cons t ts => isStaticTy t && isStaticList ts

end

/-- The bound on the accessor's type parameter, src/lib.rs line 85:
`fn generic_static<T: 'static + Zeroable>() -> &'static T`.  A call is
accepted exactly when `T` satisfies both bounds. -/
def acceptsCall (t : Ty) : Bool := isStaticTy t && zeroable t

example : zeroable (.tuple (.cons .u8 (.cons .atomicUsize .nil))) = true := by decide
example : zeroable (.tuple .nil) = false := by decide
example : acceptsCall (.constPtr (.refLt 0 .u32)) = false := by decide
example : zeroable (.constPtr (.refLt 0 .u32)) = true := by decide

/-- Translation of `cmp_max`, src/lib.rs lines 64-70. -/
def cmp_max (a b : Nat) : Nat :=
  if a > b then a else b

mutual

/-- The base-two exponent of `mem::align_of::<T>()` on the crate's 64-bit
targets.  Rust alignments are always powers of two; the model stores the
exponent, and `alignOfTy` below recovers the alignment as `2 ^ alignExpTy t`.
Wrappers inherit the inner alignment; a tuple's alignment is the maximum of
its fields' alignments; `PhantomData` has alignment 1. -/
def alignExpTy : Ty → Nat
  | .i8 | .u8 | .bool | .atomicBool | .atomicI8 | .atomicU8 => 0
  | .i16 | .u16 | .atomicI16 | .atomicU16 => 1
  | .i32 | .u32 | .atomicI32 | .atomicU32 => 2
  | .i64 | .u64 | .isize | .usize => 3
  | .atomicI64 | .atomicU64 | .atomicIsize | .atomicUsize => 3
  | .i128 | .u128 => 4
  | .atomicPtr _ | .constPtr _ | .mutPtr _ | .refLt _ _ => 3
  | .maybeUninit t | .manuallyDrop t | .unsafeCell t => alignExpTy t
  | .phantomData _ => 0
  | .array t _ => alignExpTy t
  | .tuple ts => alignExpList ts

/-- Maximum alignment exponent over a field list (1-byte alignment when
empty). -/
def alignExpList : TyList → Nat
  | .nil => 0
  | .cons t ts => Nat.max (alignExpTy t) (alignExpList ts)

end

/-- Model of `mem::align_of::<T>()`: a power of two by construction. -/
def alignOfTy (t : Ty) : Nat := 2 ^ alignExpTy t

/-- Round `off` up to the next multiple of the (positive) alignment `a`. -/
def alignTo (off a : Nat) : Nat := (off + a - 1) / a * a

mutual

/-- Model of `mem::size_of::<T>()` on the crate's 64-bit targets.  Scalar and
atomic sizes are their widths; pointers and references are 8 bytes;
`PhantomData` is zero-sized; wrappers inherit the inner size; an array is
`n` times the element size; a tuple is laid out field-by-field with
alignment padding and rounded up to the tuple's alignment (Rust's default
layout is unspecified — the model fixes one admissible layout; no claim
depends on the exact tuple size). -/
def sizeOfTy : Ty → Nat
  | .i8 | .u8 | .bool | .atomicBool | .atomicI8 | .atomicU8 => 1
  | .i16 | .u16 | .atomicI16 | .atomicU16 => 2
  | .i32 | .u32 | .atomicI32 | .atomicU32 => 4
  | .i64 | .u64 | .isize | .usize => 8
  | .atomicI64 | .atomicU64 | .atomicIsize | .atomicUsize => 8
  | .i128 | .u128 => 16
  | .atomicPtr _ | .constPtr _ | .mutPtr _ | .refLt _ _ => 8
  | .maybeUninit t | .manuallyDrop t | .unsafeCell t => sizeOfTy t
  | .phantomData _ => 0
  | .array t n => n * sizeOfTy t
  | .tuple ts => alignTo (tupleFieldsEnd ts 0) (2 ^ alignExpList ts)

/-- Offset past the last field when fields are placed in order from `off`,
each aligned to its own alignment. -/
def tupleFieldsEnd : TyList → Nat → Nat
  | .nil, off => off
  | .cons t ts, off => tupleFieldsEnd ts (alignTo off (alignOfTy t) + sizeOfTy t)

end

/-- The `size` operand of every asm block (src/lib.rs lines 106, 127, 147,
167, 184): `const { cmp_max(mem::size_of::<T>(), 1) }` — the byte size of the
static block reserved for `T`. -/
def slotSize (t : Ty) : Nat := cmp_max (sizeOfTy t) 1

/-- The `align` operand of every asm block (src/lib.rs lines 107, 128, 148,
168, 185): `const { mem::align_of::<T>().ilog2() }` — the `.p2align` exponent.
Rust's `ilog2` on a positive integer is the floor base-2 logarithm,
i.e. `Nat.log2`. -/
def asmAlignConst (t : Ty) : Nat := Nat.log2 (alignOfTy t)

/-- Floor base-2 logarithm inverts powers of two. -/
theorem log2_two_pow (k : Nat) : Nat.log2 (2 ^ k) = k := by
  rw [Nat.log2_eq_log_two]
  exact Nat.log_pow Nat.one_lt_two k

/-- The asm `align` operand is exactly the stored alignment exponent. -/
theorem asmAlignConst_eq (t : Ty) : asmAlignConst t = alignExpTy t :=
  log2_two_pow (alignExpTy t)

example : slotSize (.phantomData .u8) = 1 := by decide
example : slotSize (.tuple (.cons .u8 (.cons .u32 .nil))) = 8 := by decide
example : asmAlignConst .atomicUsize = 3 := by rw [asmAlignConst_eq]; decide

/-- Target operating systems distinguished by the `cfg` attributes of
src/lib.rs.  `bareMetal` is `target_os = "none"`; `otherOs` stands for any
OS not named in the `cfg` list of lines 192-200. -/
inductive TargetOs where
  | macos | ios | tvos | linux | freebsd | bareMetal | windows | otherOs
deriving DecidableEq

/-- Target architectures distinguished by the `cfg` attributes; `otherArch`
stands for any architecture other than the two named ones. -/
inductive TargetArch where
  | aarch64 | x86_64 | otherArch
deriving DecidableEq

/-- OS matched by `any(target_os = "macos", target_os = "ios",
target_os = "tvos")` — the Mach-O backends. -/
def isMachOs : TargetOs → Bool
  | .macos | .ios | .tvos => true
  | _ => false

/-- OS matched by `any(target_os = "none", target_os = "linux",
target_os = "freebsd")` — the ELF backends. -/
def isElfOs : TargetOs → Bool
  | .bareMetal | .linux | .freebsd => true
  | _ => false

/-- Whether one of the five asm backends of src/lib.rs (lines 93-190) matches
the target: aarch64 Mach-O, aarch64 ELF, x86_64 Mach-O, x86_64 ELF, or
x86_64 Windows. -/
def hasBackend (os : TargetOs) (arch : TargetArch) : Bool :=
  (arch == .aarch64 && isMachOs os) ||
  (arch == .aarch64 && isElfOs os) ||
  (arch == .x86_64 && isMachOs os) ||
  (arch == .x86_64 && isElfOs os) ||
  (arch == .x86_64 && os == .windows)

/-- OS named in the `cfg(not(any(...)))` guard of src/lib.rs lines 192-200. -/
def osInCfgList : TargetOs → Bool
  | .bareMetal | .linux | .freebsd | .macos | .ios | .tvos | .windows => true
  | .otherOs => false

/-- Whether `compile_error!("static-generics is not supported on this
platform")` (src/lib.rs line 201) fires, making the build fail.  The guard
tests only the operating system, never the architecture. -/
def compileErrorFires (os : TargetOs) : Bool := !osInCfgList os

/-- The five asm backends. -/
inductive Backend where
  | machoAarch64 | elfAarch64 | machoX86 | elfX86 | windowsX86
deriving DecidableEq

/-- Object-file section attributes, read off the `.pushsection` directive of
each backend. -/
structure SectionSpec where
  name : String
  writable : Bool
  allocated : Bool
  code : Bool
  readOnly : Bool
  noBits : Bool
deriving DecidableEq

/-- Section used by each backend for the static block:
Mach-O backends use `__DATA,__data` (lines 102, 143) — the regular writable
data segment, not code, not read-only, with contents emitted explicitly;
ELF backends use `.pushsection .bss.generic_statics,"aw",@nobits`
(lines 123, 163) — allocated, writable, no-bits (zero-fill);
the Windows backend uses `.pushsection .bss.generic_statics,"bw"`
(line 180) — uninitialized (bss) and writable. -/
def sectionOf : Backend → SectionSpec
  | .machoAarch64 | .machoX86 =>
      { name := "__DATA,__data", writable := true, allocated := true,
        code := false, readOnly := false, noBits := false }
  | .elfAarch64 | .elfX86 =>
      { name := ".bss.generic_statics", writable := true, allocated := true,
        code := false, readOnly := false, noBits := true }
  | .windowsX86 =>
      { name := ".bss.generic_statics", writable := true, allocated := true,
        code := false, readOnly := false, noBits := true }

/-- The initial bytes of the block reserved for `T`: every backend emits
`1: .zero {size}` at the label (lines 104, 125, 145, 165, 182), i.e.
`slotSize t` zero bytes. -/
def slotInitBytes (t : Ty) : List Nat := List.replicate (slotSize t) 0

/-- One monomorphized instantiation key of `generic_static`: the namespace
(identified by a number — namespaces are zero-sized marker types, so only
their identity matters) together with the type argument `T`. -/
structure Inst where
  ns : Nat
  ty : Ty
deriving DecidableEq

/-- Sequential layout of the emitted static blocks inside the section,
starting at offset `off`: each instantiation's block is placed at the next
offset aligned to `align_of T` (`.p2align`) and occupies `slotSize` bytes
(`.zero`).  Returns each instantiation's address. -/
def layoutAux : List Inst → Nat → List (Inst × Nat)
  | [], _ => []
  | k :: ks, off =>
      let a := alignTo off (alignOfTy k.ty)
      (k, a) :: layoutAux ks (a + slotSize k.ty)

/-- Look up the address of an instantiation among the laid-out blocks. -/
def findAddr : List (Inst × Nat) → Inst → Option Nat
  | [], _ => none
  | (k, a) :: rest, q => if q = k then some a else findAddr rest q

/-- Address of the static block of instantiation `k` in a binary whose
generic-statics section is loaded at `base` and whose emitted instantiation
list is `ks`. -/
def addrOf (base : Nat) (ks : List Inst) (k : Inst) : Option Nat :=
  findAddr (layoutAux ks base) k

/-- Model of `Namespace::generic_static` (src/lib.rs lines 83-206) at
runtime, for a binary built for target `(os, arch)` with section base `base`
and emitted instantiations `ks`:
`addr` starts as null (line 87); if one of the five backends matched at
build time, its asm block computes the label address of the block emitted
for `k`; otherwise no asm block runs and `addr` stays null.  The
`assert!(!addr.is_null(), "unsupported platform")` of line 203 panics
(modelled as `Except.error` with the panic message) on a null address, and
otherwise the address is returned (line 205). -/
def computedAddr (os : TargetOs) (arch : TargetArch) (base : Nat)
    (ks : List Inst) (k : Inst) : Nat :=
  if hasBackend os arch then (addrOf base ks k).getD 0 else 0

/-- The tail of `generic_static`: the assertion of line 203 and the return of
line 205, on the `addr` value left by the (possibly absent) asm block. -/
def genericStatic (os : TargetOs) (arch : TargetArch) (base : Nat)
    (ks : List Inst) (k : Inst) : Except String Nat :=
  if computedAddr os arch base ks k = 0 then Except.error "unsupported platform"
  else Except.ok (computedAddr os arch base ks k)

/-- Byte-addressed memory right after load: the generic-statics section is
zero-filled (no-bits sections, and `.zero` directives in the Mach-O data
section), so every byte of every slot reads 0. -/
def sectionMem0 : Nat → Nat := fun _ => 0

/-- Read `n` consecutive bytes starting at address `p`. -/
def readBytes (m : Nat → Nat) (p n : Nat) : List Nat :=
  (List.range n).map fun i => m (p + i)

/-- Write the byte list `vs` to consecutive addresses starting at `p`. -/
def writeBytes : (Nat → Nat) → Nat → List Nat → Nat → Nat
  | m, _, [] => m
  | m, p, v :: vs => writeBytes (fun r => if r = p then v % 256 else m r) (p + 1) vs

/-- Little-endian decoding of a byte list into an unsigned value. -/
def decodeLE : List Nat → Nat
  | [] => 0
  | b :: bs => b + 256 * decodeLE bs

/-- Alignments are positive. -/
theorem alignOf_pos (t : Ty) : 0 < alignOfTy t := Nat.pos_pow_of_pos _ (by decide)

/-- Rounding up to a positive alignment never moves an offset down. -/
theorem le_alignTo (off a : Nat) (h : 0 < a) : off ≤ alignTo off a := by
  unfold alignTo
  have h1 := Nat.div_add_mod (off + a - 1) a
  have h2 : (off + a - 1) % a < a := Nat.mod_lt _ h
  have h3 : (off + a - 1) / a * a = a * ((off + a - 1) / a) := Nat.mul_comm _ _
  rw [h3]
  omega

/-- Every block laid out from offset `off` sits at or above `off`. -/
theorem layoutAux_mem_le : ∀ (ks : List Inst) (off : Nat) (p : Inst × Nat),
    p ∈ layoutAux ks off → off ≤ p.2 := by
  intro ks
  induction ks with
  | nil => intro off p hp; simp [layoutAux] at hp
  | cons k ks ih =>
      intro off p hp
      simp only [layoutAux, List.mem_cons] at hp
      rcases hp with h | h
      · subst h
        exact le_alignTo off _ (alignOf_pos k.ty)
      · have h1 := ih _ p h
        have h2 := le_alignTo off (alignOfTy k.ty) (alignOf_pos k.ty)
        omega

/-- Blocks are laid out in strictly separated order: each block ends at or
before the start of every later block. -/
theorem layout_pairwise : ∀ (ks : List Inst) (off : Nat),
    (layoutAux ks off).Pairwise (fun p q => p.2 + slotSize p.1.ty ≤ q.2) := by
  intro ks
  induction ks with
  | nil => intro off; exact List.Pairwise.nil
  | cons k ks ih =>
      intro off
      refine List.Pairwise.cons ?_ (ih _)
      intro q hq
      exact layoutAux_mem_le ks _ q hq

/-- A successful lookup means the pair occurs among the laid-out blocks. -/
theorem findAddr_mem : ∀ (l : List (Inst × Nat)) (q : Inst) (a : Nat),
    findAddr l q = some a → (q, a) ∈ l := by
  intro l
  induction l with
  | nil => intro q a h; simp [findAddr] at h
  | cons p rest ih =>
      intro q a h
      obtain ⟨k, b⟩ := p
      simp only [findAddr] at h
      split at h
      · rename_i hqk
        subst hqk
        cases h
        exact List.mem_cons_self _ _
      · exact List.mem_cons_of_mem _ (ih q a h)

/-- The blocks of two distinct instantiations never overlap. -/
theorem slots_disjoint (base : Nat) (ks : List Inst) (k1 k2 : Inst) (a1 a2 : Nat)
    (hne : k1 ≠ k2) (h1 : addrOf base ks k1 = some a1)
    (h2 : addrOf base ks k2 = some a2) :
    a1 + slotSize k1.ty ≤ a2 ∨ a2 + slotSize k2.ty ≤ a1 := by
  have m1 := findAddr_mem _ _ _ h1
  have m2 := findAddr_mem _ _ _ h2
  have hpd : (layoutAux ks base).Pairwise
      (fun p q : Inst × Nat =>
        p.2 + slotSize p.1.ty ≤ q.2 ∨ q.2 + slotSize q.1.ty ≤ p.2) :=
    (layout_pairwise ks base).imp fun h => Or.inl h
  have hsym : Symmetric
      (fun p q : Inst × Nat =>
        p.2 + slotSize p.1.ty ≤ q.2 ∨ q.2 + slotSize q.1.ty ≤ p.2) := by
    intro p q h
    exact h.symm
  have hne' : ((k1, a1) : Inst × Nat) ≠ (k2, a2) := by
    intro h
    exact hne (congrArg Prod.fst h)
  exact hpd.forall hsym m1 m2 hne'

/-- Writes leave bytes outside the written range untouched. -/
theorem writeBytes_outside : ∀ (vs : List Nat) (m : Nat → Nat) (p q : Nat),
    q < p ∨ p + vs.length ≤ q → writeBytes m p vs q = m q := by
  intro vs
  induction vs with
  | nil => intro m p q _; rfl
  | cons v vs ih =>
      intro m p q h
      simp only [List.length_cons] at h
      simp only [writeBytes]
      rw [ih _ _ _ (by omega)]
      have hqp : q ≠ p := by omega
      simp [hqp]

/-- Reading back a byte inside the written range yields the written value. -/
theorem writeBytes_inside : ∀ (vs : List Nat) (m : Nat → Nat) (p i : Nat)
    (h : i < vs.length), writeBytes m p vs (p + i) = vs.get ⟨i, h⟩ % 256 := by
  intro vs
  induction vs with
  | nil => intro m p i h; exact absurd h (by simp)
  | cons v vs ih =>
      intro m p i h
      simp only [writeBytes]
      cases i with
      | zero =>
          rw [writeBytes_outside _ _ _ _ (by simp)]
          simp
      | succ j =>
          have hj : j < vs.length := by simpa using h
          have : p + (j + 1) = (p + 1) + j := by omega
          rw [this, ih _ _ _ hj]
          rfl

/-- A read over a region where memory is zero yields all zeros. -/
theorem readBytes_zero (m : Nat → Nat) (p n : Nat)
    (h : ∀ i, i < n → m (p + i) = 0) :
    readBytes m p n = List.replicate n 0 := by
  apply List.ext_getElem
  · simp [readBytes]
  · intro i h1 h2
    simp only [readBytes, List.getElem_map, List.getElem_range,
      List.getElem_replicate]
    exact h i (by simpa [readBytes] using h1)

/-- Reading back the whole written range yields the written bytes. -/
theorem readBytes_writeBytes_self (m : Nat → Nat) (p : Nat) (vs : List Nat) :
    readBytes (writeBytes m p vs) p vs.length = vs.map (· % 256) := by
  apply List.ext_getElem
  · simp [readBytes]
  · intro i h1 h2
    have hi : i < vs.length := by simpa using h2
    simp only [readBytes, List.getElem_map, List.getElem_range]
    rw [writeBytes_inside vs m p i hi]
    simp [List.get_eq_getElem]

/-- Decoding an all-zero byte string gives the value zero. -/
theorem decodeLE_replicate_zero : ∀ n, decodeLE (List.replicate n 0) = 0 := by
  intro n
  induction n with
  | zero => rfl
  | succ n ih => simp [List.replicate_succ, decodeLE, ih]

/-- Every reserved block is at least one byte. -/
theorem slotSize_pos (t : Ty) : 0 < slotSize t := by
  unfold slotSize cmp_max
  split <;> omega

/-- The field-list length agrees with the converted list's length. -/
theorem tyListLen_eq : ∀ ts : TyList, ts.len = ts.toList.length
  | .nil => rfl
  | .cons t ts => by simp [TyList.len, TyList.toList, tyListLen_eq ts]

/-- The field-list fold agrees with `List.all` over the converted list. -/
theorem zeroableList_eq_all : ∀ ts : TyList, zeroableList ts = ts.toList.all zeroable
  | .nil => rfl
  | .cons t ts => by simp [zeroableList, TyList.toList, zeroableList_eq_all ts]



/-- C1: for a fixed namespace and certified type, two calls to the accessor
in the same binary (same target, same section base, same emitted
instantiation list — i.e. no inlining-induced duplication) that both return
a reference return equal addresses. -/
theorem generic_static_idempotent_address (os : TargetOs) (arch : TargetArch)
    (base : Nat) (ks : List Inst) (k : Inst) (a1 a2 : Nat)
    (hz : zeroable k.ty = true)
    (h1 : genericStatic os arch base ks k = Except.ok a1)
    (h2 : genericStatic os arch base ks k = Except.ok a2) : a1 = a2 := by
  rw [h1] at h2
  injection h2

theorem generic_static_idempotent_address_witness : (8 : Nat) = 8 :=
  generic_static_idempotent_address .linux .x86_64 8 [⟨0, .usize⟩] ⟨0, .usize⟩
    8 8 rfl rfl rfl

/-- C5: whenever the accessor returns a reference (rather than panicking via
`assert!(!addr.is_null(), "unsupported platform")`), the underlying address
is non-null. -/
theorem generic_static_never_null (os : TargetOs) (arch : TargetArch)
    (base : Nat) (ks : List Inst) (k : Inst) (a : Nat)
    (h : genericStatic os arch base ks k = Except.ok a) : a ≠ 0 := by
  unfold genericStatic at h
  by_cases hz : computedAddr os arch base ks k = 0
  · rw [if_pos hz] at h
    exact Except.noConfusion h
  · rw [if_neg hz] at h
    injection h with h'
    rw [← h']
    exact hz

theorem generic_static_never_null_witness : (8 : Nat) ≠ 0 :=
  generic_static_never_null .linux .x86_64 8 [⟨0, .usize⟩] ⟨0, .usize⟩ 8 rfl

/-- C4 (counterexample): Windows on aarch64 has no asm backend, yet the
`compile_error!` guard — which inspects only `target_os` — does not fire, so
the build produces a binary instead of failing at compile time. -/
theorem target_gate_counterexample :
    hasBackend .windows .aarch64 = false ∧
    compileErrorFires .windows = false := by decide

/-- C4 (amended): the build-time rejection fires exactly when the target OS
is outside the list named in the `cfg` guard; for a listed OS whose
architecture has no backend the build succeeds and every call to the
accessor instead fails at runtime with the "unsupported platform" panic
(never returning a null-derived reference). -/
theorem target_gate_amended :
    (∀ os, compileErrorFires os = true ↔ osInCfgList os = false) ∧
    (∀ os arch base ks k, compileErrorFires os = false →
      hasBackend os arch = false →
      genericStatic os arch base ks k = Except.error "unsupported platform") := by
  constructor
  · intro os
    cases os <;> simp [compileErrorFires, osInCfgList]
  · intro os arch base ks k _ h
    unfold genericStatic computedAddr
    rw [h]
    rfl

theorem target_gate_amended_witness :
    genericStatic .windows .aarch64 8 [⟨0, .usize⟩] ⟨0, .usize⟩ =
      Except.error "unsupported platform" :=
  target_gate_amended.2 .windows .aarch64 8 [⟨0, .usize⟩] ⟨0, .usize⟩
    (by decide) (by decide)

/-- C8 (counterexample): `*const &'a u32` holds the `Zeroable` capability
(raw pointer to a `Sized` pointee, src/zeroable.rs line 55) but is rejected
by the accessor, whose type parameter carries the additional bound
`T: 'static` (src/lib.rs line 85). -/
theorem accepts_counterexample :
    zeroable (Ty.constPtr (Ty.refLt 0 Ty.u32)) = true ∧
    acceptsCall (Ty.constPtr (Ty.refLt 0 Ty.u32)) = false := by decide

/-- C8 (amended): a call to the accessor is accepted exactly when the type
argument holds the zero-initializability capability AND additionally
satisfies the `'static` bound of the signature. -/
theorem accepts_amended (t : Ty) :
    acceptsCall t = true ↔ (zeroable t = true ∧ isStaticTy t = true) := by
  unfold acceptsCall
  rw [Bool.and_eq_true]
  exact and_comm

/-- C2: two distinct (namespace, type) instantiations — different certified
types under one namespace (even of equal size and layout, including
marker-only `PhantomData` wrappers), or the same type under different
namespaces — receive different, non-overlapping static blocks. -/
theorem generic_static_distinct_slots (base : Nat) (ks : List Inst)
    (k1 k2 : Inst) (a1 a2 : Nat)
    (hz1 : zeroable k1.ty = true) (hz2 : zeroable k2.ty = true)
    (hne : k1 ≠ k2)
    (h1 : addrOf base ks k1 = some a1) (h2 : addrOf base ks k2 = some a2) :
    a1 ≠ a2 ∧ (a1 + slotSize k1.ty ≤ a2 ∨ a2 + slotSize k2.ty ≤ a1) := by
  have hd := slots_disjoint base ks k1 k2 a1 a2 hne h1 h2
  have s1 := slotSize_pos k1.ty
  have s2 := slotSize_pos k2.ty
  refine ⟨?_, hd⟩
  rcases hd with h | h <;> omega

theorem generic_static_distinct_slots_witness :
    ((80 : Nat) ≠ 81 ∧
      (80 + slotSize (Ty.phantomData .usize) ≤ 81 ∨
        81 + slotSize (Ty.phantomData .isize) ≤ 80)) ∧
    ((64 : Nat) ≠ 72 ∧
      (64 + slotSize Ty.atomicUsize ≤ 72 ∨ 72 + slotSize Ty.atomicIsize ≤ 64)) ∧
    ((64 : Nat) ≠ 88 ∧
      (64 + slotSize Ty.atomicUsize ≤ 88 ∨ 88 + slotSize Ty.atomicUsize ≤ 64)) :=
  ⟨generic_static_distinct_slots 64
      [⟨0, .atomicUsize⟩, ⟨0, .atomicIsize⟩, ⟨0, .phantomData .usize⟩,
        ⟨0, .phantomData .isize⟩, ⟨1, .atomicUsize⟩]
      ⟨0, .phantomData .usize⟩ ⟨0, .phantomData .isize⟩ 80 81
      (by decide) (by decide) (by decide) (by decide) (by decide),
    generic_static_distinct_slots 64
      [⟨0, .atomicUsize⟩, ⟨0, .atomicIsize⟩, ⟨0, .phantomData .usize⟩,
        ⟨0, .phantomData .isize⟩, ⟨1, .atomicUsize⟩]
      ⟨0, .atomicUsize⟩ ⟨0, .atomicIsize⟩ 64 72
      (by decide) (by decide) (by decide) (by decide) (by decide),
    generic_static_distinct_slots 64
      [⟨0, .atomicUsize⟩, ⟨0, .atomicIsize⟩, ⟨0, .phantomData .usize⟩,
        ⟨0, .phantomData .isize⟩, ⟨1, .atomicUsize⟩]
      ⟨0, .atomicUsize⟩ ⟨1, .atomicUsize⟩ 64 88
      (by decide) (by decide) (by decide) (by decide) (by decide)⟩

/-- C3: on first observation the bytes of any certified type's slot are all
zero — the slot lies in zero-filled static storage, its emitted initializer
is `.zero {size}`, and the decoded integer value of the slot is zero. -/
theorem generic_static_zero_init (base : Nat) (ks : List Inst) (k : Inst)
    (a : Nat) (hz : zeroable k.ty = true) (h : addrOf base ks k = some a) :
    readBytes sectionMem0 a (slotSize k.ty) = List.replicate (slotSize k.ty) 0 ∧
    readBytes sectionMem0 a (slotSize k.ty) = slotInitBytes k.ty ∧
    decodeLE (readBytes sectionMem0 a (slotSize k.ty)) = 0 := by
  have h0 : readBytes sectionMem0 a (slotSize k.ty) =
      List.replicate (slotSize k.ty) 0 :=
    readBytes_zero _ _ _ fun _ _ => rfl
  refine ⟨h0, h0, ?_⟩
  rw [h0]
  exact decodeLE_replicate_zero _

theorem generic_static_zero_init_witness :
    readBytes sectionMem0 8 (slotSize Ty.usize) =
      List.replicate (slotSize Ty.usize) 0 ∧
    readBytes sectionMem0 8 (slotSize Ty.usize) = slotInitBytes Ty.usize ∧
    decodeLE (readBytes sectionMem0 8 (slotSize Ty.usize)) = 0 :=
  generic_static_zero_init 8 [⟨0, .usize⟩] ⟨0, .usize⟩ 8 (by decide) (by decide)

/-- C9: writing bytes through the slot of one instantiation and re-reading
that slot observes the written bytes, while the slot of any other
instantiation under the same layout still reads all-zero (value zero). -/
theorem mutation_frame (base : Nat) (ks : List Inst) (k1 k2 : Inst)
    (a1 a2 : Nat) (vs : List Nat)
    (hz1 : zeroable k1.ty = true) (hz2 : zeroable k2.ty = true)
    (hne : k1 ≠ k2)
    (h1 : addrOf base ks k1 = some a1) (h2 : addrOf base ks k2 = some a2)
    (hlen : vs.length ≤ slotSize k1.ty) :
    readBytes (writeBytes sectionMem0 a1 vs) a1 vs.length = vs.map (· % 256) ∧
    readBytes (writeBytes sectionMem0 a1 vs) a2 (slotSize k2.ty) =
      List.replicate (slotSize k2.ty) 0 ∧
    decodeLE (readBytes (writeBytes sectionMem0 a1 vs) a2 (slotSize k2.ty)) = 0 := by
  have hd := slots_disjoint base ks k1 k2 a1 a2 hne h1 h2
  have hframe : readBytes (writeBytes sectionMem0 a1 vs) a2 (slotSize k2.ty) =
      List.replicate (slotSize k2.ty) 0 := by
    apply readBytes_zero
    intro i hi
    rw [writeBytes_outside]
    · rfl
    · rcases hd with h | h
      · right; omega
      · left; omega
  refine ⟨readBytes_writeBytes_self _ _ _, hframe, ?_⟩
  rw [hframe]
  exact decodeLE_replicate_zero _

theorem mutation_frame_witness :
    readBytes (writeBytes sectionMem0 0 [42]) 0 ([42] : List Nat).length =
      ([42] : List Nat).map (· % 256) ∧
    readBytes (writeBytes sectionMem0 0 [42]) 8 (slotSize Ty.atomicIsize) =
      List.replicate (slotSize Ty.atomicIsize) 0 ∧
    decodeLE (readBytes (writeBytes sectionMem0 0 [42]) 8
      (slotSize Ty.atomicIsize)) = 0 :=
  mutation_frame 0 [⟨0, .atomicUsize⟩, ⟨0, .atomicIsize⟩]
    ⟨0, .atomicUsize⟩ ⟨0, .atomicIsize⟩ 0 8 [42]
    (by decide) (by decide) (by decide) (by decide) (by decide) (by decide)

/-- C6: the static block reserved for `T` has size
`cmp_max(size_of::<T>(), 1)` (so zero-sized types still reserve one byte),
its `.p2align` exponent recovers exactly the alignment of `T`, its emitted
initializer is all-zero, and every backend places it in a writable section
that is neither code nor read-only. -/
theorem slot_size_align_section (t : Ty) (b : Backend) :
    slotSize t = cmp_max (sizeOfTy t) 1 ∧
    1 ≤ slotSize t ∧
    asmAlignConst t = Nat.log2 (alignOfTy t) ∧
    2 ^ asmAlignConst t = alignOfTy t ∧
    slotInitBytes t = List.replicate (slotSize t) 0 ∧
    (sectionOf b).writable = true ∧
    (sectionOf b).code = false ∧
    (sectionOf b).readOnly = false ∧
    (sectionOf b).allocated = true := by
  refine ⟨rfl, slotSize_pos t, rfl, ?_, rfl, ?_, ?_, ?_, ?_⟩
  · rw [asmAlignConst_eq]
    rfl
  all_goals cases b <;> rfl

/-- C7: complete characterization of the built-in certified (`Zeroable`) set:
all fixed-width and platform-width signed/unsigned integers and `bool`; the
atomic wrappers over them and over pointers; raw pointer types; `MaybeUninit`
for any contained type; `ManuallyDrop` and `UnsafeCell` certified iff the
contained type is; `PhantomData` always; arrays certified iff the element
type is; tuples of 1 through 8 fields certified iff every field type is; and
nothing else (references are not certified). -/
theorem zeroable_builtin_set :
    (zeroable .i8 = true ∧ zeroable .i16 = true ∧ zeroable .i32 = true ∧
      zeroable .i64 = true ∧ zeroable .i128 = true ∧ zeroable .u8 = true ∧
      zeroable .u16 = true ∧ zeroable .u32 = true ∧ zeroable .u64 = true ∧
      zeroable .u128 = true ∧ zeroable .isize = true ∧ zeroable .usize = true ∧
      zeroable .bool = true) ∧
    (zeroable .atomicBool = true ∧ zeroable .atomicI8 = true ∧
      zeroable .atomicI16 = true ∧ zeroable .atomicI32 = true ∧
      zeroable .atomicI64 = true ∧ zeroable .atomicIsize = true ∧
      zeroable .atomicU8 = true ∧ zeroable .atomicU16 = true ∧
      zeroable .atomicU32 = true ∧ zeroable .atomicU64 = true ∧
      zeroable .atomicUsize = true) ∧
    (∀ t, zeroable (.atomicPtr t) = true) ∧
    (∀ t, zeroable (.constPtr t) = true) ∧
    (∀ t, zeroable (.mutPtr t) = true) ∧
    (∀ t, zeroable (.maybeUninit t) = true) ∧
    (∀ t, zeroable (.manuallyDrop t) = zeroable t) ∧
    (∀ t, zeroable (.unsafeCell t) = zeroable t) ∧
    (∀ t, zeroable (.phantomData t) = true) ∧
    (∀ t n, zeroable (.array t n) = zeroable t) ∧
    (∀ ts : TyList, zeroable (.tuple ts) =
      (decide (1 ≤ ts.toList.length) && decide (ts.toList.length ≤ 8) &&
        ts.toList.all zeroable)) ∧
    (∀ lt t, zeroable (.refLt lt t) = false) := by
  refine ⟨by decide, by decide, fun t => rfl, fun t => rfl, fun t => rfl,
    fun t => rfl, fun t => rfl, fun t => rfl, fun t => rfl, fun t n => rfl,
    ?_, fun lt t => rfl⟩
  intro ts
  rw [zeroable, zeroableList_eq_all, tyListLen_eq]

/-- C10: the unit type `()` is not certified, no tuple of more than 8 fields
is certified, and within 1 through 8 fields a tuple is certified exactly when
every field type is; in particular the accessor cannot be invoked at `()` or
at a tuple of more than 8 fields. -/
theorem tuple_certification_bounds :
    zeroable (.tuple .nil) = false ∧
    acceptsCall (.tuple .nil) = false ∧
    (∀ ts : TyList, 8 < ts.len →
      zeroable (.tuple ts) = false ∧ acceptsCall (.tuple ts) = false) ∧
    (∀ ts : TyList, 1 ≤ ts.len → ts.len ≤ 8 →
      (zeroable (.tuple ts) = true ↔ ∀ t ∈ ts.toList, zeroable t = true)) := by
  refine ⟨by decide, by decide, ?_, ?_⟩
  · intro ts h
    have hz : zeroable (.tuple ts) = false := by
      rw [zeroable]
      have : decide (ts.len ≤ 8) = false := by simp; omega
      simp [this]
    refine ⟨hz, ?_⟩
    rw [acceptsCall, hz, Bool.and_false]
  · intro ts h1 h8
    rw [zeroable, zeroableList_eq_all]
    simp [h1, h8, List.all_eq_true]

theorem tuple_certification_bounds_witness :
    (zeroable (.tuple (.cons .u8 (.cons .u8 (.cons .u8 (.cons .u8 (.cons .u8
      (.cons .u8 (.cons .u8 (.cons .u8 (.cons .u8 .nil)))))))))) = false ∧
      acceptsCall (.tuple (.cons .u8 (.cons .u8 (.cons .u8 (.cons .u8
        (.cons .u8 (.cons .u8 (.cons .u8 (.cons .u8
          (.cons .u8 .nil)))))))))) = false) ∧
    (zeroable (.tuple (.cons .u8 .nil)) = true ↔
      ∀ t ∈ (TyList.cons .u8 .nil).toList, zeroable t = true) :=
  ⟨tuple_certification_bounds.2.2.1 _ (by decide),
    tuple_certification_bounds.2.2.2 _ (by decide) (by decide)⟩
